import Mathlib

/-!
# Verification of the gocloak codec layer (models.go)

Shallow embedding of the wire-compatibility codec in `models.go`:
the flexible scalar codec (`StringOrArray`), the defensive text codec
(`EnforcedString`), the field projection codec (`GetQueryParams`,
`TokenOptions.FormData`), the policy normalization (`PolicyRepresentation.ToConfig`)
and the backward-compatibility aliasing (`GetGroupsParams.MarshalJSON`).

Wire payloads are modelled as `List Char` (Go `[]byte` holding text).
Go pointers (`*T` with `omitempty`) are modelled as `Option`.
Go `map[string]string` is modelled as `String → Option String`
(Go maps expose no iteration order).
The Go `encoding/json` string encoder and decoder are modelled faithfully
(escaping of quote, backslash, control characters, HTML characters
and U+2028/U+2029 on encode; escape sequences, `\uXXXX` with surrogate
pairs, rejection of raw control characters and of trailing garbage on
decode).  Invalid UTF-8, which Lean strings cannot represent, is outside
the model.
-/

/-- Lowercase hexadecimal digit, as used by Go `encoding/json` for
`\u00xx` escapes. -/
def hexDigitChar (n : Nat) : Char :=
  if n < 10 then Char.ofNat ('0'.toNat + n) else Char.ofNat ('a'.toNat + (n - 10))

/-- Go `encoding/json` escaping of a single character inside a string
literal (`appendString` with HTML escaping, the `json.Marshal` default):
quote, backslash, newline, carriage return and tab get two-character
escapes; other control characters and the HTML characters get `\u00xx`;
U+2028/U+2029 get `\u202x`; everything else is copied verbatim. -/
def goEscapeChar (c : Char) : List Char :=
  if c = '"' then ['\\', '"']
  else if c = '\\' then ['\\', '\\']
  else if c = '\n' then ['\\', 'n']
  else if c = '\r' then ['\\', 'r']
  else if c = '\t' then ['\\', 't']
  else if c.toNat < 0x20 ∨ c = '<' ∨ c = '>' ∨ c = '&' ∨ c.toNat = 0x2028 ∨ c.toNat = 0x2029 then
    ['\\', 'u', hexDigitChar (c.toNat / 4096 % 16), hexDigitChar (c.toNat / 256 % 16),
      hexDigitChar (c.toNat / 16 % 16), hexDigitChar (c.toNat % 16)]
  else [c]

/-- Go `json.Marshal` of a string value: a quote, the escaped
characters, a closing quote. -/
def goMarshalStringChars (s : List Char) : List Char :=
  '"' :: (s.flatMap goEscapeChar ++ ['"'])

/-- JSON whitespace, as accepted by the Go scanner between tokens. -/
def isJsonWs (c : Char) : Bool :=
  c = ' ' || c = '\t' || c = '\n' || c = '\r'

/-- Drop leading JSON whitespace. -/
def skipWs : List Char → List Char
  | [] => []
  | c :: cs => if isJsonWs c then skipWs cs else c :: cs

/-- Numeric value of one hexadecimal digit (upper or lower case). -/
def hexCharVal (c : Char) : Option Nat :=
  if '0' ≤ c ∧ c ≤ '9' then some (c.toNat - '0'.toNat)
  else if 'a' ≤ c ∧ c ≤ 'f' then some (c.toNat - 'a'.toNat + 10)
  else if 'A' ≤ c ∧ c ≤ 'F' then some (c.toNat - 'A'.toNat + 10)
  else none

/-- Value of a four-digit hexadecimal escape payload. -/
def hex4 (a b c d : Char) : Option Nat :=
  match hexCharVal a, hexCharVal b, hexCharVal c, hexCharVal d with
  | some va, some vb, some vc, some vd => some (((va * 16 + vb) * 16 + vc) * 16 + vd)
  | _, _, _, _ => none

/-- Go `unquoteBytes` single-character escapes (the decoder also accepts
an escaped apostrophe and a slash, and the shorthands for backspace and
form feed that the encoder itself never emits). -/
def goUnescapeChar : Char → Option Char
  | '"' => some '"'
  | '\\' => some '\\'
  | '/' => some '/'
  | '\'' => some '\''
  | 'b' => some (Char.ofNat 8)
  | 'f' => some (Char.ofNat 12)
  | 'n' => some '\n'
  | 'r' => some '\r'
  | 't' => some '\t'
  | _ => none

/-- The Unicode replacement character, written by the Go decoder for a
lone surrogate escape. -/
def replacementChar : Char := Char.ofNat 0xFFFD

/-- Combine a high and a low surrogate value into one scalar value, as
`utf16.DecodeRune` does. -/
def combineSurrogates (hi lo : Nat) : Char :=
  Char.ofNat (0x10000 + (hi - 0xD800) * 0x400 + (lo - 0xDC00))

/-- Parse the body of a JSON string literal after the opening quote,
per the Go scanner and `unquoteBytes`: returns the decoded content and
the input remaining after the closing quote.  Raw control characters
are rejected; `\uXXXX` escapes handle surrogate pairs, a lone surrogate
decodes to U+FFFD.  The recursion is fueled (one unit per produced
character, so any fuel above the input length suffices); callers pass
the input length plus one. -/
def parseJsonStringBody : Nat → List Char → Option (List Char × List Char)
  | 0, _ => none
  | _ + 1, [] => none
  | _ + 1, '"' :: rest => some ([], rest)
  | fuel + 1, '\\' :: 'u' :: a :: b :: c :: d :: rest =>
    match hex4 a b c d with
    | none => none
    | some n =>
      if 0xD800 ≤ n ∧ n < 0xE000 then
        match rest with
        | '\\' :: 'u' :: a2 :: b2 :: c2 :: d2 :: rest2 =>
          match hex4 a2 b2 c2 d2 with
          | some m =>
            if n < 0xDC00 ∧ 0xDC00 ≤ m ∧ m < 0xE000 then
              (fun p => (combineSurrogates n m :: p.1, p.2)) <$> parseJsonStringBody fuel rest2
            else
              (fun p => (replacementChar :: p.1, p.2)) <$> parseJsonStringBody fuel rest
          | none => (fun p => (replacementChar :: p.1, p.2)) <$> parseJsonStringBody fuel rest
        | _ => (fun p => (replacementChar :: p.1, p.2)) <$> parseJsonStringBody fuel rest
      else
        (fun p => (Char.ofNat n :: p.1, p.2)) <$> parseJsonStringBody fuel rest
  | fuel + 1, '\\' :: e :: rest =>
    match goUnescapeChar e with
    | some ch => (fun p => (ch :: p.1, p.2)) <$> parseJsonStringBody fuel rest
    | none => none
  | fuel + 1, c :: rest =>
    if c.toNat < 0x20 then none
    else (fun p => (c :: p.1, p.2)) <$> parseJsonStringBody fuel rest

/-- Go `json.Unmarshal(data, &s)` for `s` of type `string`: leading and
trailing whitespace is allowed, the value must be a string literal
(`null` is accepted and leaves the string at its zero value), and
nothing may follow it. -/
def goUnmarshalString (data : List Char) : Option (List Char) :=
  match skipWs data with
  | '"' :: rest =>
    match parseJsonStringBody (rest.length + 1) rest with
    | some (s, rest2) => if skipWs rest2 = [] then some s else none
    | none => none
  | 'n' :: 'u' :: 'l' :: 'l' :: rest => if skipWs rest = [] then some [] else none
  | _ => none

/-- Comma-separated concatenation of already-rendered JSON values, as
`json.Marshal` lays out array elements (no spaces). -/
def sepByComma : List (List Char) → List Char
  | [] => []
  | x :: xs => x ++ xs.flatMap (fun y => ',' :: y)

/-- Go `json.Marshal` of a non-nil `[]string` value:
`[` , the rendered elements separated by commas, `]`. -/
def goMarshalStringArray (l : List (List Char)) : List Char :=
  '[' :: (sepByComma (l.map goMarshalStringChars) ++ [']'])

/-- Elements of a JSON array of strings, after the opening bracket when
the array is known non-empty: a string (or `null`, which Go leaves as
the zero value `""`) then either a comma and more elements or the
closing bracket.  Fueled by one unit per element. -/
def parseStringArrayElems : Nat → List Char → Option (List (List Char) × List Char)
  | 0, _ => none
  | fuel + 1, cs =>
    match skipWs cs with
    | '"' :: rest =>
      match parseJsonStringBody (rest.length + 1) rest with
      | some (s, rest2) =>
        match skipWs rest2 with
        | ',' :: rest3 => (fun q => (s :: q.1, q.2)) <$> parseStringArrayElems fuel rest3
        | ']' :: rest3 => some ([s], rest3)
        | _ => none
      | none => none
    | 'n' :: 'u' :: 'l' :: 'l' :: rest2 =>
      match skipWs rest2 with
      | ',' :: rest3 =>
        (fun q => (([] : List Char) :: q.1, q.2)) <$> parseStringArrayElems fuel rest3
      | ']' :: rest3 => some ([([] : List Char)], rest3)
      | _ => none
    | _ => none

/-- Go `json.Unmarshal(data, &obj)` for `obj` of type `[]string`:
a JSON array of strings (or `null`, which leaves the slice nil, hence
empty), with nothing but whitespace after it. -/
def goUnmarshalStringArray (data : List Char) : Option (List (List Char)) :=
  match skipWs data with
  | '[' :: rest =>
    match skipWs rest with
    | ']' :: rest2 => if skipWs rest2 = [] then some [] else none
    | _ =>
      match parseStringArrayElems rest.length rest with
      | some (l, rest2) => if skipWs rest2 = [] then some l else none
      | none => none
  | 'n' :: 'u' :: 'l' :: 'l' :: rest => if skipWs rest = [] then some [] else none
  | _ => none

/-- Model of `StringOrArray` represents a value that can either be a string or
an array of strings (`models.go`). -/
def StringOrArray := List (List Char)

/-- Model of `StringOrArray.UnmarshalJSON` (`models.go`): if the payload has
length above one and starts with `[`, decode it as a `[]string`;
otherwise decode it as a single string and wrap it in a one-element
sequence.  A decode failure of the underlying `json.Unmarshal` is the
error return of the method. -/
def StringOrArray.unmarshalJSON (data : List Char) : Except String StringOrArray :=
  if 1 < data.length ∧ data.head? = some '[' then
    match goUnmarshalStringArray data with
    | some l => .ok l
    | none => .error "json: cannot unmarshal array"
  else
    match goUnmarshalString data with
    | some s => .ok [s]
    | none => .error "json: cannot unmarshal string"

/-- Model of `StringOrArray.MarshalJSON` (`models.go`): a one-element sequence is
marshalled as its bare string element; anything else is marshalled as a
JSON array of strings. -/
def StringOrArray.marshalJSON (s : StringOrArray) : List Char :=
  if s.length = 1 then goMarshalStringChars (s.headD [])
  else goMarshalStringArray s


/-- Model of `bytes.ReplaceAll(s, pat, rep)`: replace every non-overlapping
occurrence of `pat` in `s` by `rep`, scanning left to right.  Fueled by
one unit per consumed character; the wrapper below passes the input
length.  (The source only ever calls this with a non-empty pattern;
the empty-pattern case of the Go function is not exercised and is
modelled as the identity.) -/
def replaceAllFuel (pat rep : List Char) : Nat → List Char → List Char
  | _, [] => []
  | 0, s => s
  | fuel + 1, c :: cs =>
    if pat.isPrefixOf (c :: cs) ∧ pat ≠ [] then
      rep ++ replaceAllFuel pat rep fuel ((c :: cs).drop pat.length)
    else
      c :: replaceAllFuel pat rep fuel cs

/-- Model of `bytes.ReplaceAll` at adequate fuel. -/
def replaceAll (pat rep s : List Char) : List Char :=
  replaceAllFuel pat rep s.length s

/-- Model of `EnforcedString.UnmarshalJSON` (`models.go`): if the first byte is
not a quote, escape every quote, collapse `\\"` back to `\"`, wrap the
whole payload in quotes, and then run the ordinary JSON string decode.
`data[0]` on an empty payload is an out-of-bounds access (a Go panic),
modelled as `none`; a completed call (decoded value or error return)
is `some`. -/
def EnforcedString.unmarshalJSON (data : List Char) : Option (Except String (List Char)) :=
  match data with
  | [] => none
  | c :: _ =>
    let data2 :=
      if c ≠ '"' then
        let d1 := replaceAll ['"'] ['\\', '"'] data
        let d2 := replaceAll ['\\', '\\', '"'] ['\\', '"'] d1
        '"' :: (d2 ++ ['"'])
      else data
    some (match goUnmarshalString data2 with
      | some v => .ok v
      | none => .error "json: cannot unmarshal string")


/-- Go `map[string]string`, modelled as a lookup function (Go maps
expose no iteration order). -/
def ConfigMap := String → Option String

/-- The empty map (`map[string]string{}`). -/
def emptyConfig : ConfigMap := fun _ => none

/-- Map update (`m[k] = v`), later writes win. -/
def insertEntry (m : ConfigMap) (k v : String) : ConfigMap :=
  fun k2 => if k2 = k then some v else m k2

/-- A sequence of map writes, performed left to right. -/
def applyEntries (m : ConfigMap) (l : List (String × String)) : ConfigMap :=
  l.foldl (fun acc kv => insertEntry acc kv.1 kv.2) m

/-- The last value written for key `k` by the write sequence `l`. -/
def assocLast (l : List (String × String)) (k : String) : Option String :=
  match l with
  | [] => none
  | kv :: t =>
    match assocLast t k with
    | some v => some v
    | none => if k = kv.1 then some kv.2 else none

/-- Model of `RoleDefinition` (`models.go`): a role in a
`RolePolicyRepresentation`.  `priv` models the Go field `Private`. -/
structure RoleDefinition where
  id : Option String
  priv : Option Bool
  required : Option Bool
deriving DecidableEq

/-- Model of `GroupDefinition` (`models.go`): a group in a
`GroupPolicyRepresentation`. -/
structure GroupDefinition where
  id : Option String
  path : Option String
  extendChildren : Option Bool
deriving DecidableEq

/-- Model of `RolePolicyRepresentation` (`models.go`). -/
structure RolePolicyRepresentation where
  roles : Option (List RoleDefinition)
deriving DecidableEq

/-- Model of `JSPolicyRepresentation` (`models.go`). -/
structure JSPolicyRepresentation where
  code : Option String
deriving DecidableEq

/-- Model of `ClientPolicyRepresentation` (`models.go`). -/
structure ClientPolicyRepresentation where
  clients : Option (List String)
deriving DecidableEq

/-- Model of `TimePolicyRepresentation` (`models.go`). -/
structure TimePolicyRepresentation where
  notBefore : Option String
  notOnOrAfter : Option String
  dayMonth : Option String
  dayMonthEnd : Option String
  month : Option String
  monthEnd : Option String
  year : Option String
  yearEnd : Option String
  hour : Option String
  hourEnd : Option String
  minute : Option String
  minuteEnd : Option String
deriving DecidableEq

/-- Model of `UserPolicyRepresentation` (`models.go`). -/
structure UserPolicyRepresentation where
  users : Option (List String)
deriving DecidableEq

/-- Model of `AggregatedPolicyRepresentation` (`models.go`). -/
structure AggregatedPolicyRepresentation where
  policies : Option (List String)
deriving DecidableEq

/-- Model of `GroupPolicyRepresentation` (`models.go`). -/
structure GroupPolicyRepresentation where
  groups : Option (List GroupDefinition)
  groupsClaim : Option String
deriving DecidableEq

/-- Model of `PolicyRepresentation` (`models.go`): the shared policy fields plus
the seven embedded kind-specific representations.  `DecisionStrategy`
and `Logic` are string enums in the source and are modelled as strings. -/
structure PolicyRepresentation where
  config : Option ConfigMap
  decisionStrategy : Option String
  description : Option String
  id : Option String
  logic : Option String
  name : Option String
  owner : Option String
  policies : Option (List String)
  resources : Option (List String)
  scopes : Option (List String)
  type : Option String
  rolePolicy : RolePolicyRepresentation
  jsPolicy : JSPolicyRepresentation
  clientPolicy : ClientPolicyRepresentation
  timePolicy : TimePolicyRepresentation
  userPolicy : UserPolicyRepresentation
  aggregatedPolicy : AggregatedPolicyRepresentation
  groupPolicy : GroupPolicyRepresentation

/-- Go `%t` rendering of a bool. -/
def boolWireString (b : Bool) : String :=
  if b then "true" else "false"

/-- Model of `ToConfig` clients loop: each client id in `"%s"` quotes, joined by
commas inside brackets. -/
def clientsConfigValue (cs : List String) : String :=
  "[" ++ String.intercalate "," (cs.map (fun c => "\"" ++ c ++ "\"")) ++ "]"

/-- Model of `ToConfig` roles loop: a role with an id renders as
`{"id":"<id>","required":<bool>}` with `required` defaulting to false;
a role without an id leaves its slot at the zero value, the empty
string, which still takes part in the comma join. -/
def rolesConfigValue (rs : List RoleDefinition) : String :=
  "[" ++ String.intercalate "," (rs.map (fun r =>
    match r.id with
    | some i =>
      "\x7b\"id\":\"" ++ i ++ "\",\"required\":" ++ boolWireString (r.required.getD false) ++ "\x7d"
    | none => "")) ++ "]"

/-- Model of `ToConfig` groups loop: like the roles loop, with
`extendChildren` in place of `required`. -/
def groupsConfigValue (gs : List GroupDefinition) : String :=
  "[" ++ String.intercalate "," (gs.map (fun g =>
    match g.id with
    | some i =>
      "\x7b\"id\":\"" ++ i ++ "\",\"extendChildren\":" ++ boolWireString (g.extendChildren.getD false) ++ "\x7d"
    | none => "")) ++ "]"

/-- One optional config write: present field value under its key,
absent field contributes nothing. -/
def optEntry (k : String) (v : Option String) : List (String × String) :=
  match v with
  | some s => [(k, s)]
  | none => []

/-- Config write of the clients block of `ToConfig`: present iff the
client list is non-nil and non-empty. -/
def clientsEntries (p : PolicyRepresentation) : List (String × String) :=
  optEntry "clients" (match p.clientPolicy.clients with
    | some cs => if 0 < cs.length then some (clientsConfigValue cs) else none
    | none => none)

/-- Config write of the roles block of `ToConfig`. -/
def rolesEntries (p : PolicyRepresentation) : List (String × String) :=
  optEntry "roles" (match p.rolePolicy.roles with
    | some rs => if 0 < rs.length then some (rolesConfigValue rs) else none
    | none => none)

/-- Config write of the js block of `ToConfig`: the code stored
verbatim whenever present. -/
def codeEntries (p : PolicyRepresentation) : List (String × String) :=
  optEntry "code" p.jsPolicy.code

/-- Config write of the users block of `ToConfig`. -/
def usersEntries (p : PolicyRepresentation) : List (String × String) :=
  optEntry "users" (match p.userPolicy.users with
    | some us => if 0 < us.length then some (clientsConfigValue us) else none
    | none => none)

/-- Config write of the aggregated-policies block of `ToConfig`. -/
def applyPoliciesEntries (p : PolicyRepresentation) : List (String × String) :=
  optEntry "applyPolicies" (match p.aggregatedPolicy.policies with
    | some ps => if 0 < ps.length then some (clientsConfigValue ps) else none
    | none => none)

/-- Config writes of the groups block of `ToConfig` (the group list and
the independent claim name). -/
def groupsEntries (p : PolicyRepresentation) : List (String × String) :=
  optEntry "groups" (match p.groupPolicy.groups with
    | some gs => if 0 < gs.length then some (groupsConfigValue gs) else none
    | none => none) ++
  optEntry "groupsClaim" p.groupPolicy.groupsClaim

/-- Config writes of the time block of `ToConfig`: each present bound
under its own short key. -/
def timeEntries (p : PolicyRepresentation) : List (String × String) :=
  optEntry "nbf" p.timePolicy.notBefore ++
  optEntry "noa" p.timePolicy.notOnOrAfter ++
  optEntry "dayMonth" p.timePolicy.dayMonth ++
  optEntry "dayMonthEnd" p.timePolicy.dayMonthEnd ++
  optEntry "month" p.timePolicy.month ++
  optEntry "monthEnd" p.timePolicy.monthEnd ++
  optEntry "year" p.timePolicy.year ++
  optEntry "yearEnd" p.timePolicy.yearEnd ++
  optEntry "hour" p.timePolicy.hour ++
  optEntry "hourEnd" p.timePolicy.hourEnd ++
  optEntry "minute" p.timePolicy.minute ++
  optEntry "minuteEnd" p.timePolicy.minuteEnd

/-- All config writes of `PolicyRepresentation.ToConfig`, in source
order. -/
def policyConfigEntries (p : PolicyRepresentation) : List (String × String) :=
  clientsEntries p ++ rolesEntries p ++ codeEntries p ++ usersEntries p ++
  applyPoliciesEntries p ++ groupsEntries p ++ timeEntries p

/-- Model of `PolicyRepresentation.ToConfig` (`models.go`): start from the
existing config map (an empty map when nil) and write one entry per
non-empty kind-specific field, then store the map back on the record.
The Go method mutates its receiver; the model returns the updated
record. -/
def PolicyRepresentation.toConfig (p : PolicyRepresentation) : PolicyRepresentation :=
  { p with config := some (applyEntries (p.config.getD emptyConfig) (policyConfigEntries p)) }

/-- Go `,string`-tagged marshalling of an `*int` field: the base-10
text of the value. -/
def intWireString (i : Int) : String := toString i

/-- Model of `GetUsersParams` (`models.go`): optional parameters for getting
users.  Fields in declaration order; `*T` is `Option`; bool and int
fields carry the `,string` tag. -/
structure GetUsersParams where
  briefRepresentation : Option Bool
  email : Option String
  emailVerified : Option Bool
  enabled : Option Bool
  exact : Option Bool
  first : Option Int
  firstName : Option String
  idpAlias : Option String
  idpUserID : Option String
  lastName : Option String
  max : Option Int
  q : Option String
  search : Option String
  username : Option String
deriving DecidableEq

/-- One optional entry per spec pair, in order: the generic shape of a
marshalled record with `omitempty` fields. -/
def optEntriesOf (specs : List (String × Option String)) : List (String × String) :=
  specs.flatMap (fun kv => optEntry kv.1 kv.2)

/-- The fields of a `GetUsersParams` value in declaration order: wire
key and optional rendered value, with bool and int values rendered to
text by the `,string` tag. -/
def usersFieldSpecs (p : GetUsersParams) : List (String × Option String) :=
  [("briefRepresentation", p.briefRepresentation.map boolWireString),
   ("email", p.email),
   ("emailVerified", p.emailVerified.map boolWireString),
   ("enabled", p.enabled.map boolWireString),
   ("exact", p.exact.map boolWireString),
   ("first", p.first.map intWireString),
   ("firstName", p.firstName),
   ("idpAlias", p.idpAlias),
   ("idpUserId", p.idpUserID),
   ("lastName", p.lastName),
   ("max", p.max.map intWireString),
   ("q", p.q),
   ("search", p.search),
   ("username", p.username)]

/-- The JSON object emitted by `json.Marshal` for a `GetUsersParams`
value, as its ordered key/value pairs: one pair per non-nil field, in
field declaration order, under the field's wire key. -/
def getUsersParamsPairs (p : GetUsersParams) : List (String × String) :=
  optEntriesOf (usersFieldSpecs p)

/-- Model of `GetQueryParams` (`models.go`) applied to a `GetUsersParams` value:
marshal the record to JSON and unmarshal the result into a
`map[string]string` (sequential key writes in emission order).  For
this record type neither step can fail. -/
def GetUsersParams.getQueryParams (p : GetUsersParams) : ConfigMap :=
  applyEntries emptyConfig (getUsersParamsPairs p)

/-- The wire keys of `GetUsersParams`, in field declaration order. -/
def getUsersParamsKeys : List String :=
  ["briefRepresentation", "email", "emailVerified", "enabled", "exact", "first",
   "firstName", "idpAlias", "idpUserId", "lastName", "max", "q", "search", "username"]

/-- Model of `GetGroupsParams` (`models.go`): optional parameters for getting
groups. -/
structure GetGroupsParams where
  briefRepresentation : Option Bool
  exact : Option Bool
  first : Option Int
  full : Option Bool
  max : Option Int
  q : Option String
  search : Option String
deriving DecidableEq

/-- The backward-compatibility aliasing step of
`GetGroupsParams.MarshalJSON` (`models.go`): on the copied value, if
`BriefRepresentation` is set derive `Full` as its negation (overwriting
any existing `Full`); otherwise if `Full` is set derive
`BriefRepresentation` as its negation. -/
def aliasGroupsParams (g : GetGroupsParams) : GetGroupsParams :=
  match g.briefRepresentation with
  | some b => { g with full := some (!b) }
  | none =>
    match g.full with
    | some f => { g with briefRepresentation := some (!f) }
    | none => g

/-- The JSON object emitted for a (already aliased) `GetGroupsParams`
value, as ordered key/value pairs. -/
def getGroupsParamsPairs (g : GetGroupsParams) : List (String × String) :=
  optEntry "briefRepresentation" (g.briefRepresentation.map boolWireString) ++
  optEntry "exact" (g.exact.map boolWireString) ++
  optEntry "first" (g.first.map intWireString) ++
  optEntry "full" (g.full.map boolWireString) ++
  optEntry "max" (g.max.map intWireString) ++
  optEntry "q" g.q ++
  optEntry "search" g.search

/-- Model of `GetGroupsParams.MarshalJSON` (`models.go`): run the aliasing on a
copy of the receiver, then marshal the copy; modelled as the emitted
object's ordered key/value pairs. -/
def GetGroupsParams.marshalJSON (g : GetGroupsParams) : List (String × String) :=
  getGroupsParamsPairs (aliasGroupsParams g)

/-- Modelled from the spec: the helper `NilOrEmpty` used by
`TokenOptions.FormData` is not among the provided source files.  Per the
spec's omit-if-absent convention ("skip if the field's value is absent
(unset/default)"), a nil pointer or a pointer to the empty string counts
as empty. -/
def nilOrEmpty : Option String → Bool
  | none => true
  | some s => s.isEmpty

/-- Modelled from the spec: the helper `NilOrEmptySlice` used by
`TokenOptions.FormData` is not among the provided source files; a nil
pointer or a pointer to a zero-length slice counts as empty. -/
def nilOrEmptySlice : Option (List String) → Bool
  | none => true
  | some l => l.isEmpty

/-- Model of `TokenOptions` (`models.go`): the options to obtain a token.
`ClientSecret`, `Scopes` and `ResponseTypes` carry the `json:"-"` tag
and are never marshalled. -/
structure TokenOptions where
  clientID : Option String
  clientSecret : Option String
  grantType : Option String
  refreshToken : Option String
  scopes : Option (List String)
  scope : Option String
  responseTypes : Option (List String)
  responseType : Option String
  permission : Option String
  username : Option String
  password : Option String
  totp : Option String
  code : Option String
  redirectURI : Option String
  clientAssertionType : Option String
  clientAssertion : Option String
  subjectToken : Option String
  requestedSubject : Option String
  audience : Option String
  requestedTokenType : Option String
deriving DecidableEq

/-- The JSON object emitted for a `TokenOptions` value, as ordered
key/value pairs: the `json:"-"` fields never appear; every other
non-nil field appears under its wire key in declaration order. -/
def tokenOptionsPairs (t : TokenOptions) : List (String × String) :=
  optEntry "client_id" t.clientID ++
  optEntry "grant_type" t.grantType ++
  optEntry "refresh_token" t.refreshToken ++
  optEntry "scope" t.scope ++
  optEntry "response_type" t.responseType ++
  optEntry "permission" t.permission ++
  optEntry "username" t.username ++
  optEntry "password" t.password ++
  optEntry "totp" t.totp ++
  optEntry "code" t.code ++
  optEntry "redirect_uri" t.redirectURI ++
  optEntry "client_assertion_type" t.clientAssertionType ++
  optEntry "client_assertion" t.clientAssertion ++
  optEntry "subject_token" t.subjectToken ++
  optEntry "requested_subject" t.requestedSubject ++
  optEntry "audience" t.audience ++
  optEntry "requested_token_type" t.requestedTokenType

/-- Model of `TokenOptions.FormData` (`models.go`): join a non-empty `Scopes`
into `Scope` and a non-empty `ResponseTypes` into `ResponseType` with
single spaces, default `ResponseType` to `"token"` when it is still nil
or empty, then marshal the record and decode the result into a
`map[string]string`.  The Go method mutates its receiver; the model
returns the post-call receiver together with the map.  Each of the
three mutating statements is modelled as its own step below; `formData`
composes them.  First statement: join a non-empty `Scopes` into
`Scope`. -/
def TokenOptions.joinScopes (t : TokenOptions) : TokenOptions :=
  if nilOrEmptySlice t.scopes = false then
    { t with scope := some (String.intercalate " " (t.scopes.getD [])) }
  else t

/-- Second statement of `FormData`: join a non-empty `ResponseTypes`
into `ResponseType`. -/
def TokenOptions.joinResponseTypes (t : TokenOptions) : TokenOptions :=
  if nilOrEmptySlice t.responseTypes = false then
    { t with responseType := some (String.intercalate " " (t.responseTypes.getD [])) }
  else t

/-- Third statement of `FormData`: default a nil-or-empty
`ResponseType` to `"token"`. -/
def TokenOptions.defaultResponseType (t : TokenOptions) : TokenOptions :=
  if nilOrEmpty t.responseType then { t with responseType := some "token" } else t

def TokenOptions.formData (t : TokenOptions) : TokenOptions × ConfigMap :=
  (t.joinScopes.joinResponseTypes.defaultResponseType,
   applyEntries emptyConfig (tokenOptionsPairs t.joinScopes.joinResponseTypes.defaultResponseType))

/-- The all-nil `TokenOptions` record. -/
def emptyTokenOptions : TokenOptions :=
  ⟨none, none, none, none, none, none, none, none, none, none,
   none, none, none, none, none, none, none, none, none, none⟩

/-- The all-nil `PolicyRepresentation` record. -/
def emptyPolicyRepresentation : PolicyRepresentation :=
  ⟨none, none, none, none, none, none, none, none, none, none, none,
   ⟨none⟩, ⟨none⟩, ⟨none⟩, ⟨none, none, none, none, none, none, none, none, none, none, none, none⟩,
   ⟨none⟩, ⟨none⟩, ⟨none, none⟩⟩

/-- Quote-escaping as a per-character map: the effect of
`bytes.ReplaceAll(data, [quote], [backslash quote])` (a derived
characterization used by the proofs). -/
def escapeQuotes (s : List Char) : List Char :=
  s.flatMap (fun c => if c = '"' then ['\\', '"'] else [c])

/-- Following the spec's words (refinement reference for the field
projection guarantee): the mapping with exactly one entry per present
field of a `GetUsersParams`, under its declared wire key, values
rendered to text. -/
def specUsersProjection (p : GetUsersParams) : ConfigMap := fun k =>
  if k = "briefRepresentation" then p.briefRepresentation.map boolWireString
  else if k = "email" then p.email
  else if k = "emailVerified" then p.emailVerified.map boolWireString
  else if k = "enabled" then p.enabled.map boolWireString
  else if k = "exact" then p.exact.map boolWireString
  else if k = "first" then p.first.map intWireString
  else if k = "firstName" then p.firstName
  else if k = "idpAlias" then p.idpAlias
  else if k = "idpUserId" then p.idpUserID
  else if k = "lastName" then p.lastName
  else if k = "max" then p.max.map intWireString
  else if k = "q" then p.q
  else if k = "search" then p.search
  else if k = "username" then p.username
  else none

/-- The `GetUsersParams` record of the spec's projection example:
`Max = 10`, everything else absent. -/
def usersParamsMaxTen : GetUsersParams :=
  ⟨none, none, none, none, none, none, none, none, none, none, some 10, none, none, none⟩

/-- The policy of the spec's normalization example: a role list
`[(r1, required), (r2)]` and nothing else. -/
def rolesExamplePolicy : PolicyRepresentation :=
  { emptyPolicyRepresentation with
    rolePolicy := ⟨some [⟨some "r1", none, some true⟩, ⟨some "r2", none, none⟩]⟩ }

/-- A role-policy whose second role entry has no id. -/
def missingIdPolicy : PolicyRepresentation :=
  { emptyPolicyRepresentation with
    rolePolicy := ⟨some [⟨some "r1", none, none⟩, ⟨none, none, some true⟩]⟩ }

/-- The aliasing example record: `BriefRepresentation = true`,
`Full = false` (to be overwritten), everything else absent. -/
def groupsParamsBriefTrue : GetGroupsParams :=
  ⟨some true, none, none, some false, none, none, none⟩

/-- A `TokenOptions` record with both a plural scope list and an
explicit singular scope. -/
def scopesClashOptions : TokenOptions :=
  { emptyTokenOptions with scopes := some ["openid"], scope := some "explicit" }

/-- A `TokenOptions` record with plural scopes and response types and
no singular values. -/
def scopesJoinOptions : TokenOptions :=
  { emptyTokenOptions with scopes := some ["a", "b"], responseTypes := some ["c"] }

theorem assocLast_nil (k : String) : assocLast [] k = none := rfl

theorem assocLast_cons (kv : String × String) (t : List (String × String)) (k : String) :
    assocLast (kv :: t) k = (assocLast t k).or (if k = kv.1 then some kv.2 else none) := by
  cases h : assocLast t k <;> simp [assocLast, h, Option.or]

theorem assocLast_append (l1 l2 : List (String × String)) (k : String) :
    assocLast (l1 ++ l2) k = (assocLast l2 k).or (assocLast l1 k) := by
  induction l1 with
  | nil => simp [assocLast_nil]
  | cons kv t ih =>
    rw [List.cons_append, assocLast_cons, ih, assocLast_cons, Option.or_assoc]

theorem applyEntries_apply (l : List (String × String)) (m : ConfigMap) (k : String) :
    applyEntries m l k = (assocLast l k).or (m k) := by
  induction l generalizing m with
  | nil => simp [applyEntries, assocLast_nil]
  | cons kv t ih =>
    rw [show applyEntries m (kv :: t) = applyEntries (insertEntry m kv.1 kv.2) t from rfl,
      ih, assocLast_cons, Option.or_assoc]
    cases assocLast t k <;> simp only [insertEntry, Option.or] <;> split <;> simp

theorem applyEntries_self_idempotent (l : List (String × String)) (m : ConfigMap) :
    applyEntries (applyEntries m l) l = applyEntries m l := by
  funext k
  rw [applyEntries_apply, applyEntries_apply]
  cases assocLast l k <;> simp [Option.or]

theorem policyConfigEntries_toConfig (p : PolicyRepresentation) :
    policyConfigEntries p.toConfig = policyConfigEntries p := rfl

/-- C4.  Normalization is idempotent: running `ToConfig` a second time
on an already-normalized policy yields the same record (the same config
mapping and unchanged kind-specific fields), because normalization only
reads the kind-specific fields, never the config bag, as input. -/
theorem toConfig_idempotent (p : PolicyRepresentation) :
    p.toConfig.toConfig = p.toConfig := by
  show ({ p.toConfig with
      config := some (applyEntries (p.toConfig.config.getD emptyConfig)
        (policyConfigEntries p.toConfig)) }) = p.toConfig
  rw [policyConfigEntries_toConfig,
    show p.toConfig.config = some (applyEntries (p.config.getD emptyConfig)
      (policyConfigEntries p)) from rfl]
  rw [show (some (applyEntries (p.config.getD emptyConfig) (policyConfigEntries p))).getD
      emptyConfig = applyEntries (p.config.getD emptyConfig) (policyConfigEntries p) from rfl,
    applyEntries_self_idempotent]
  rfl

/-- C7 counterexample.  The codec operations are not all pure in their
input: `ToConfig` writes the derived config onto its receiver (here it
turns a nil config into an empty map), and `FormData` writes the
`"token"` response-type default onto its receiver. -/
theorem toConfig_formData_mutate_receiver :
    emptyPolicyRepresentation.toConfig ≠ emptyPolicyRepresentation ∧
    (emptyTokenOptions.formData).1 ≠ emptyTokenOptions := by
  constructor
  · intro h
    have hc := congrArg PolicyRepresentation.config h
    simp [PolicyRepresentation.toConfig, emptyPolicyRepresentation] at hc
  · intro h
    have hc := congrArg TokenOptions.responseType h
    simp [TokenOptions.formData, TokenOptions.joinScopes, TokenOptions.joinResponseTypes,
      TokenOptions.defaultResponseType, emptyTokenOptions, nilOrEmptySlice, nilOrEmpty] at hc

/-- C7 (amended).  Receiver mutation is confined: `ToConfig` touches
only the `Config` field of its receiver, `FormData` touches only the
`Scope` and `ResponseType` fields of its receiver; `GetQueryParams` and
`GetGroupsParams.MarshalJSON` (a value receiver that copies the record
before aliasing) read their input without mutating it, and every
operation's output is a fresh value. -/
theorem codec_mutation_frame :
    (∀ p : PolicyRepresentation, ∃ m, p.toConfig = { p with config := some m }) ∧
    (∀ t : TokenOptions, ∃ s r, (t.formData).1 = { t with scope := s, responseType := r }) ∧
    (∀ g : GetGroupsParams, g.marshalJSON = getGroupsParamsPairs (aliasGroupsParams g)) := by
  refine ⟨fun p => ⟨_, rfl⟩, fun t => ?_, fun g => rfl⟩
  have h1 : ∃ s, t.joinScopes = { t with scope := s } := by
    unfold TokenOptions.joinScopes
    split
    · exact ⟨_, rfl⟩
    · exact ⟨t.scope, rfl⟩
  have h2 : ∃ r, t.joinScopes.joinResponseTypes = { t.joinScopes with responseType := r } := by
    unfold TokenOptions.joinResponseTypes
    split
    · exact ⟨_, rfl⟩
    · exact ⟨t.joinScopes.responseType, rfl⟩
  have h3 : ∃ r, t.joinScopes.joinResponseTypes.defaultResponseType
      = { t.joinScopes.joinResponseTypes with responseType := r } := by
    unfold TokenOptions.defaultResponseType
    split
    · exact ⟨_, rfl⟩
    · exact ⟨t.joinScopes.joinResponseTypes.responseType, rfl⟩
  obtain ⟨s, e1⟩ := h1
  obtain ⟨r2, e2⟩ := h2
  obtain ⟨r3, e3⟩ := h3
  refine ⟨s, r3, ?_⟩
  show t.joinScopes.joinResponseTypes.defaultResponseType = _
  rw [e3, e2, e1]

theorem assocLast_optEntry (k1 : String) (v : Option String) (k : String) :
    assocLast (optEntry k1 v) k = if k = k1 then v else none := by
  cases v with
  | none => simp [optEntry, assocLast_nil]
  | some s => rw [optEntry, assocLast_cons, assocLast_nil]; split <;> simp [Option.or]

/-- C3.  `GetGroupsParams.MarshalJSON` aliasing at encode time: a set
`BriefRepresentation` forces `Full` to its negation (overwriting any
existing `Full`); otherwise a set `Full` forces `BriefRepresentation`
to its negation; when neither is set, neither wire key appears. -/
theorem getGroupsParams_aliasing (g : GetGroupsParams) :
    (∀ b, g.briefRepresentation = some b →
      assocLast g.marshalJSON "full" = some (boolWireString (!b)) ∧
      assocLast g.marshalJSON "briefRepresentation" = some (boolWireString b)) ∧
    (g.briefRepresentation = none → ∀ f, g.full = some f →
      assocLast g.marshalJSON "briefRepresentation" = some (boolWireString (!f)) ∧
      assocLast g.marshalJSON "full" = some (boolWireString f)) ∧
    (g.briefRepresentation = none → g.full = none →
      assocLast g.marshalJSON "full" = none ∧
      assocLast g.marshalJSON "briefRepresentation" = none) := by
  refine ⟨fun b hb => ?_, fun hb f hf => ?_, fun hb hf => ?_⟩
  · simp [GetGroupsParams.marshalJSON, aliasGroupsParams, hb, getGroupsParamsPairs,
      assocLast_append, assocLast_optEntry, Option.or]
  · simp [GetGroupsParams.marshalJSON, aliasGroupsParams, hb, hf, getGroupsParamsPairs,
      assocLast_append, assocLast_optEntry, Option.or]
  · simp [GetGroupsParams.marshalJSON, aliasGroupsParams, hb, hf, getGroupsParamsPairs,
      assocLast_append, assocLast_optEntry, Option.or]

/-- C3 witness at `BriefRepresentation = true` with a stale
`Full = false` that the aliasing overwrites. -/
theorem getGroupsParams_aliasing_witness :
    assocLast groupsParamsBriefTrue.marshalJSON "full" = some "false" ∧
    assocLast groupsParamsBriefTrue.marshalJSON "briefRepresentation" = some "true" :=
  (getGroupsParams_aliasing groupsParamsBriefTrue).1 true rfl

theorem map_fst_optEntriesOf_sublist (specs : List (String × Option String)) :
    List.Sublist ((optEntriesOf specs).map Prod.fst) (specs.map Prod.fst) := by
  induction specs with
  | nil => simp [optEntriesOf]
  | cons kv t ih =>
    cases h : kv.2 with
    | none => simpa [optEntriesOf, optEntry, h] using ih.cons kv.1
    | some s => simpa [optEntriesOf, optEntry, h] using ih.cons₂ kv.1

/-- C6.  `GetQueryParams` on a `GetUsersParams` record: the emitted
entries carry the declared wire keys in field-declaration order (their
key sequence is a sublist of the declaration-order key list, so each
field contributes at most one entry, order is preserved and no other
entry exists); the resulting map has an entry exactly for each present
field, rendered per its tag (the refinement reference
`specUsersProjection` spells out the spec's per-field guarantee); and
the record with only `Max = 10` projects to exactly the mapping with
the single entry `max`, value `"10"`. -/
theorem getUsersParams_getQueryParams_spec :
    (∀ p : GetUsersParams, List.Sublist ((getUsersParamsPairs p).map Prod.fst) getUsersParamsKeys) ∧
    (∀ (p : GetUsersParams) (k : String), p.getQueryParams k = specUsersProjection p k) ∧
    (∀ k, usersParamsMaxTen.getQueryParams k = if k = "max" then some "10" else none) := by
  refine ⟨fun p => ?_, fun p k => ?_, fun k => ?_⟩
  · rw [show getUsersParamsKeys = (usersFieldSpecs p).map Prod.fst from rfl,
      getUsersParamsPairs]
    exact map_fst_optEntriesOf_sublist _
  · rw [GetUsersParams.getQueryParams, applyEntries_apply]
    simp only [getUsersParamsPairs, usersFieldSpecs, optEntriesOf, List.flatMap_cons,
      List.flatMap_nil, assocLast_append, assocLast_optEntry, assocLast_nil,
      specUsersProjection, emptyConfig]
    by_cases h1 : k = "briefRepresentation"
    · simp [h1]
    by_cases h2 : k = "email"
    · simp [h1, h2]
    by_cases h3 : k = "emailVerified"
    · simp [h1, h2, h3]
    by_cases h4 : k = "enabled"
    · simp [h1, h2, h3, h4]
    by_cases h5 : k = "exact"
    · simp [h1, h2, h3, h4, h5]
    by_cases h6 : k = "first"
    · simp [h1, h2, h3, h4, h5, h6]
    by_cases h7 : k = "firstName"
    · simp [h1, h2, h3, h4, h5, h6, h7]
    by_cases h8 : k = "idpAlias"
    · simp [h1, h2, h3, h4, h5, h6, h7, h8]
    by_cases h9 : k = "idpUserId"
    · simp [h1, h2, h3, h4, h5, h6, h7, h8, h9]
    by_cases h10 : k = "lastName"
    · simp [h1, h2, h3, h4, h5, h6, h7, h8, h9, h10]
    by_cases h11 : k = "max"
    · simp [h1, h2, h3, h4, h5, h6, h7, h8, h9, h10, h11]
    by_cases h12 : k = "q"
    · simp [h1, h2, h3, h4, h5, h6, h7, h8, h9, h10, h11, h12]
    by_cases h13 : k = "search"
    · simp [h1, h2, h3, h4, h5, h6, h7, h8, h9, h10, h11, h12, h13]
    by_cases h14 : k = "username"
    · simp [h1, h2, h3, h4, h5, h6, h7, h8, h9, h10, h11, h12, h13, h14]
    simp [h1, h2, h3, h4, h5, h6, h7, h8, h9, h10, h11, h12, h13, h14]
  · rw [GetUsersParams.getQueryParams, applyEntries_apply]
    simp only [usersParamsMaxTen, getUsersParamsPairs, usersFieldSpecs, optEntriesOf,
      List.flatMap_cons, List.flatMap_nil, assocLast_append, assocLast_optEntry,
      assocLast_nil, Option.map_some, Option.map_none, emptyConfig]
    by_cases h : k = "max"
    · simp only [h, assocLast_optEntry]
      norm_num [Option.or]
      rfl
    · simp [h, assocLast_optEntry]

theorem joinScopes_scope (t : TokenOptions) :
    (t.joinScopes).scope = if nilOrEmptySlice t.scopes = false then
      some (String.intercalate " " (t.scopes.getD [])) else t.scope := by
  unfold TokenOptions.joinScopes
  split <;> rfl

theorem joinScopes_responseTypes (t : TokenOptions) :
    (t.joinScopes).responseTypes = t.responseTypes := by
  unfold TokenOptions.joinScopes
  split <;> rfl

theorem joinScopes_responseType (t : TokenOptions) :
    (t.joinScopes).responseType = t.responseType := by
  unfold TokenOptions.joinScopes
  split <;> rfl

theorem joinResponseTypes_scope (t : TokenOptions) :
    (t.joinResponseTypes).scope = t.scope := by
  unfold TokenOptions.joinResponseTypes
  split <;> rfl

theorem joinResponseTypes_responseType (t : TokenOptions) :
    (t.joinResponseTypes).responseType = if nilOrEmptySlice t.responseTypes = false then
      some (String.intercalate " " (t.responseTypes.getD [])) else t.responseType := by
  unfold TokenOptions.joinResponseTypes
  split <;> rfl

theorem defaultResponseType_scope (t : TokenOptions) :
    (t.defaultResponseType).scope = t.scope := by
  unfold TokenOptions.defaultResponseType
  split <;> rfl

theorem defaultResponseType_responseType (t : TokenOptions) :
    (t.defaultResponseType).responseType =
      if nilOrEmpty t.responseType then some "token" else t.responseType := by
  unfold TokenOptions.defaultResponseType
  split <;> rfl

theorem formData_snd (t : TokenOptions) :
    (t.formData).2 = applyEntries emptyConfig
      (tokenOptionsPairs (t.joinScopes.joinResponseTypes.defaultResponseType)) := by
  simp only [TokenOptions.formData]

theorem tokenPairs_lookup_scope (x : TokenOptions) :
    assocLast (tokenOptionsPairs x) "scope" = x.scope := by
  simp [tokenOptionsPairs, assocLast_append, assocLast_optEntry, assocLast_nil]

theorem tokenPairs_lookup_responseType (x : TokenOptions) :
    assocLast (tokenOptionsPairs x) "response_type" = x.responseType := by
  simp [tokenOptionsPairs, assocLast_append, assocLast_optEntry, assocLast_nil]

theorem tokenPairs_lookup_scopes (x : TokenOptions) :
    assocLast (tokenOptionsPairs x) "scopes" = none := by
  simp [tokenOptionsPairs, assocLast_append, assocLast_optEntry, assocLast_nil]

/-- C5 counterexample.  With `Scopes = ["openid"]` and an explicit
`Scope = "explicit"`, `FormData` projects `scope = "openid"`: the
singular field is overwritten by the joined plural even though it
already had an explicit value, contrary to the claim. -/
theorem formData_overwrites_explicit_scope :
    (scopesClashOptions.formData).2 "scope" = some "openid" ∧
    scopesClashOptions.scope = some "explicit" ∧ ("openid" : String) ≠ "explicit" := by
  refine ⟨by rfl, rfl, by decide⟩

/-- C5 (amended).  `FormData` projection: a non-empty plural `Scopes`
is joined with single spaces into `scope`, overwriting any explicit
value; the plural field is never projected; a non-empty plural
`ResponseTypes` is likewise joined into `response_type`, with the
`"token"` default replacing an empty join. -/
theorem formData_projection_spec :
    (∀ (t : TokenOptions) (ls : List String), t.scopes = some ls → ls ≠ [] →
      (t.formData).2 "scope" = some (String.intercalate " " ls)) ∧
    (∀ t : TokenOptions, (t.formData).2 "scopes" = none) ∧
    (∀ (t : TokenOptions) (lr : List String), t.responseTypes = some lr → lr ≠ [] →
      (t.formData).2 "response_type" =
        some (if (String.intercalate " " lr).isEmpty then "token"
          else String.intercalate " " lr)) := by
  refine ⟨fun t ls hs hne => ?_, fun t => ?_, fun t lr hr hne => ?_⟩
  · rw [formData_snd, applyEntries_apply, tokenPairs_lookup_scope]
    show ((t.joinScopes.joinResponseTypes.defaultResponseType).scope).or _ = _
    rw [defaultResponseType_scope, joinResponseTypes_scope, joinScopes_scope]
    cases ls with
    | nil => exact absurd rfl hne
    | cons a l => simp [hs, nilOrEmptySlice]
  · rw [formData_snd, applyEntries_apply, tokenPairs_lookup_scopes]
    rfl
  · rw [formData_snd, applyEntries_apply, tokenPairs_lookup_responseType]
    show ((t.joinScopes.joinResponseTypes.defaultResponseType).responseType).or _ = _
    rw [defaultResponseType_responseType, joinResponseTypes_responseType,
      joinScopes_responseTypes, joinScopes_responseType]
    cases lr with
    | nil => exact absurd rfl hne
    | cons a l =>
      by_cases hj : (String.intercalate " " (a :: l)).isEmpty
      · simp [hr, nilOrEmptySlice, nilOrEmpty, hj]
      · simp [hr, nilOrEmptySlice, nilOrEmpty, hj]

/-- C5 witness at `Scopes = ["a","b"]`, `ResponseTypes = ["c"]`. -/
theorem formData_projection_spec_witness :
    (scopesJoinOptions.formData).2 "scope" = some "a b" ∧
    (scopesJoinOptions.formData).2 "scopes" = none ∧
    (scopesJoinOptions.formData).2 "response_type" = some "c" := by
  refine ⟨?_, formData_projection_spec.2.1 scopesJoinOptions, ?_⟩
  · exact formData_projection_spec.1 scopesJoinOptions ["a", "b"] rfl (by decide)
  · have h := formData_projection_spec.2.2 scopesJoinOptions ["c"] rfl (by decide)
    simpa using h

theorem policyEntries_lookup_roles (p : PolicyRepresentation) (rs : List RoleDefinition)
    (h : p.rolePolicy.roles = some rs) (hne : rs ≠ []) :
    assocLast (policyConfigEntries p) "roles" = some (rolesConfigValue rs) := by
  simp [policyConfigEntries, clientsEntries, rolesEntries, codeEntries, usersEntries,
    applyPoliciesEntries, groupsEntries, timeEntries, assocLast_append, assocLast_optEntry,
    h, List.length_pos.mpr hne]

theorem policyEntries_lookup_clients_none (p : PolicyRepresentation)
    (h : p.clientPolicy.clients = none ∨ p.clientPolicy.clients = some []) :
    assocLast (policyConfigEntries p) "clients" = none := by
  rcases h with h | h <;>
  simp [policyConfigEntries, clientsEntries, rolesEntries, codeEntries, usersEntries,
    applyPoliciesEntries, groupsEntries, timeEntries, assocLast_append, assocLast_optEntry, h]

/-- C2 counterexample.  A role entry with no id is not cleanly skipped:
it leaves an empty slot in the comma join, so the stored `roles` value
carries a dangling comma instead of being the array literal of the
remaining role objects. -/
theorem toConfig_missing_role_id_dangling_comma :
    ((missingIdPolicy.toConfig).config.getD emptyConfig) "roles"
      = some "[\x7b\"id\":\"r1\",\"required\":false\x7d,]" ∧
    ("[\x7b\"id\":\"r1\",\"required\":false\x7d,]" : String)
      ≠ "[\x7b\"id\":\"r1\",\"required\":false\x7d]" := by
  exact ⟨by rfl, by decide⟩

/-- C2 (amended).  For a policy with a non-empty role list, `ToConfig`
stores under `roles` the bracketed comma join of the role renderings in
source order, where a role with an id renders as the object with
`required` defaulting to false and a role with no id contributes an
empty slot (no error is raised); when the client list is absent or
empty (and no config was present), `clients` is absent.  In particular
the spec's two-role example stores exactly the expected array literal
and no `clients` key. -/
theorem toConfig_roles_spec :
    (∀ (p : PolicyRepresentation) (rs : List RoleDefinition),
      p.rolePolicy.roles = some rs → rs ≠ [] →
      ((p.toConfig).config.getD emptyConfig) "roles" = some (rolesConfigValue rs)) ∧
    (∀ p : PolicyRepresentation, p.config = none →
      (p.clientPolicy.clients = none ∨ p.clientPolicy.clients = some []) →
      ((p.toConfig).config.getD emptyConfig) "clients" = none) ∧
    (((rolesExamplePolicy.toConfig).config.getD emptyConfig) "roles"
        = some "[\x7b\"id\":\"r1\",\"required\":true\x7d,\x7b\"id\":\"r2\",\"required\":false\x7d]" ∧
      ((rolesExamplePolicy.toConfig).config.getD emptyConfig) "clients" = none) := by
  refine ⟨fun p rs h hne => ?_, fun p hc h => ?_, by rfl, by rfl⟩
  · show applyEntries (p.config.getD emptyConfig) (policyConfigEntries p) "roles" = _
    rw [applyEntries_apply, policyEntries_lookup_roles p rs h hne]
    rfl
  · show applyEntries (p.config.getD emptyConfig) (policyConfigEntries p) "clients" = _
    rw [applyEntries_apply, policyEntries_lookup_clients_none p h, hc]
    rfl

/-- C2 witness at the spec's example policy (roles `r1` required and
`r2` with `required` absent, no clients, no prior config). -/
theorem toConfig_roles_spec_witness :
    ((rolesExamplePolicy.toConfig).config.getD emptyConfig) "roles"
      = some (rolesConfigValue [⟨some "r1", none, some true⟩, ⟨some "r2", none, none⟩]) ∧
    ((rolesExamplePolicy.toConfig).config.getD emptyConfig) "clients" = none := by
  refine ⟨toConfig_roles_spec.1 rolesExamplePolicy _ rfl (by decide), ?_⟩
  exact toConfig_roles_spec.2.1 rolesExamplePolicy rfl (Or.inl rfl)

theorem hexCharVal_hexDigitChar (n : Nat) (h : n < 16) :
    hexCharVal (hexDigitChar n) = some n := by
  interval_cases n <;> decide

theorem parseBody_goEscape (c : Char) (fuel : Nat) (rest : List Char) :
    parseJsonStringBody (fuel + 1) (goEscapeChar c ++ rest)
      = (fun p => (c :: p.1, p.2)) <$> parseJsonStringBody fuel rest := by
  rw [goEscapeChar]
  split_ifs with h1 h2 h3 h4 h5 hu
  · subst h1; rfl
  · subst h2; rfl
  · subst h3; rfl
  · subst h4; rfl
  · subst h5; rfl
  · have hlt : c.toNat < 0x10000 := by
      rcases hu with h | h | h | h | h | h
      · omega
      · subst h; decide
      · subst h; decide
      · subst h; decide
      · omega
      · omega
    have hsur : ¬ (0xD800 ≤ c.toNat ∧ c.toNat < 0xE000) := by
      rcases hu with h | h | h | h | h | h
      · omega
      · subst h; decide
      · subst h; decide
      · subst h; decide
      · omega
      · omega
    have harith : ((c.toNat / 4096 % 16 * 16 + c.toNat / 256 % 16) * 16 + c.toNat / 16 % 16) * 16
        + c.toNat % 16 = c.toNat := by omega
    simp only [List.cons_append, List.nil_append, parseJsonStringBody, hex4,
      hexCharVal_hexDigitChar _ (Nat.mod_lt _ (by omega)), harith, if_neg hsur,
      Char.ofNat_toNat]
    rfl
  · rw [List.cons_append, List.nil_append, parseJsonStringBody.eq_def]
    have hq : c ≠ '"' := h1
    have hb : c ≠ '\\' := h2
    have hc : ¬ c.toNat < 0x20 := by omega
    simp [hq, hb, hc]

theorem length_le_flatMap_goEscape (s : List Char) :
    s.length ≤ (s.flatMap goEscapeChar).length := by
  induction s with
  | nil => simp
  | cons c cs ih =>
    have h1 : 1 ≤ (goEscapeChar c).length := by
      rw [goEscapeChar]
      split_ifs <;> simp
    simp only [List.flatMap_cons, List.length_append, List.length_cons]
    omega

theorem parseBody_flatMap (s : List Char) (fuel : Nat) (rest : List Char)
    (h : s.length < fuel) :
    parseJsonStringBody fuel (s.flatMap goEscapeChar ++ '"' :: rest) = some (s, rest) := by
  induction s generalizing fuel with
  | nil =>
    cases fuel with
    | zero => omega
    | succ f => rfl
  | cons c cs ih =>
    cases fuel with
    | zero => omega
    | succ f =>
      rw [List.flatMap_cons, List.append_assoc, parseBody_goEscape,
        ih f (by simpa using Nat.lt_of_succ_lt_succ h)]
      rfl

theorem goUnmarshalString_marshal (s : List Char) :
    goUnmarshalString (goMarshalStringChars s) = some s := by
  have hpb : parseJsonStringBody ((s.flatMap goEscapeChar ++ ['"']).length + 1)
      (s.flatMap goEscapeChar ++ '"' :: []) = some (s, []) :=
    parseBody_flatMap s _ []
      (by
        have := length_le_flatMap_goEscape s
        simp only [List.length_append, List.length_cons, List.length_nil]
        omega)
  show (match parseJsonStringBody ((s.flatMap goEscapeChar ++ ['"']).length + 1)
      (s.flatMap goEscapeChar ++ ['"']) with
    | some (v, rest2) => if skipWs rest2 = [] then some v else none
    | none => none) = some s
  rw [show (s.flatMap goEscapeChar ++ ['"'] : List Char)
      = s.flatMap goEscapeChar ++ '"' :: [] from rfl, hpb]
  rfl

theorem sepByComma_single (a : List Char) : sepByComma [a] = a := by
  simp [sepByComma]

theorem sepByComma_cons_cons (a b : List Char) (cs : List (List Char)) :
    sepByComma (a :: b :: cs) = a ++ ',' :: sepByComma (b :: cs) := by
  simp [sepByComma, List.flatMap_cons]

theorem one_le_length_goMarshalStringChars (x : List Char) :
    1 ≤ (goMarshalStringChars x).length := by
  simp [goMarshalStringChars]

theorem length_sepByComma_marshal (l : List (List Char)) (r : List Char) :
    l.length ≤ (sepByComma (l.map goMarshalStringChars) ++ r).length := by
  induction l generalizing r with
  | nil => simp
  | cons x xs ih =>
    cases xs with
    | nil =>
      have := one_le_length_goMarshalStringChars x
      simp only [List.map_cons, List.map_nil, sepByComma_single, List.length_append,
        List.length_cons, List.length_nil]
      omega
    | cons y ys =>
      have h1 := one_le_length_goMarshalStringChars x
      have h2 := ih (r := r)
      simp only [List.map_cons] at h2 ⊢
      rw [sepByComma_cons_cons, List.append_assoc]
      simp only [List.length_append, List.length_cons] at h2 ⊢
      omega

theorem parseElems_marshal (l : List (List Char)) :
    ∀ (fuel : Nat) (rest : List Char), l ≠ [] → l.length ≤ fuel →
    parseStringArrayElems fuel (sepByComma (l.map goMarshalStringChars) ++ ']' :: rest)
      = some (l, rest) := by
  induction l with
  | nil => intro fuel rest hne _; cases hne rfl
  | cons x xs ih =>
    intro fuel rest _ hfuel
    cases fuel with
    | zero => simp at hfuel
    | succ f =>
      cases xs with
      | nil =>
        rw [List.map_cons, List.map_nil, sepByComma_single]
        have hshape : goMarshalStringChars x ++ ']' :: rest
            = '"' :: (x.flatMap goEscapeChar ++ '"' :: (']' :: rest)) := by
          simp [goMarshalStringChars]
        rw [hshape]
        have hpb := parseBody_flatMap x ((x.flatMap goEscapeChar ++ '"' :: (']' :: rest)).length + 1)
          (']' :: rest)
          (by
            have := length_le_flatMap_goEscape x
            simp only [List.length_append, List.length_cons]
            omega)
        show (match parseJsonStringBody ((x.flatMap goEscapeChar ++ '"' :: (']' :: rest)).length + 1)
            (x.flatMap goEscapeChar ++ '"' :: (']' :: rest)) with
          | some (s, rest2) =>
            match skipWs rest2 with
            | ',' :: rest3 => (fun q => (s :: q.1, q.2)) <$> parseStringArrayElems f rest3
            | ']' :: rest3 => some ([s], rest3)
            | _ => none
          | none => none) = some ([x], rest)
        rw [hpb]
        rfl
      | cons y ys =>
        simp only [List.map_cons]
        rw [sepByComma_cons_cons]
        have hl : goMarshalStringChars x ++
              ',' :: sepByComma (goMarshalStringChars y :: ys.map goMarshalStringChars) ++ ']' :: rest
            = '"' :: (x.flatMap goEscapeChar ++ '"' ::
              (',' :: (sepByComma (goMarshalStringChars y :: ys.map goMarshalStringChars)
                ++ ']' :: rest))) := by
          simp [goMarshalStringChars, List.append_assoc]
        rw [hl]
        have hpb := parseBody_flatMap x
          ((x.flatMap goEscapeChar ++ '"' ::
            (',' :: (sepByComma (goMarshalStringChars y :: ys.map goMarshalStringChars)
              ++ ']' :: rest))).length + 1)
          (',' :: (sepByComma (goMarshalStringChars y :: ys.map goMarshalStringChars) ++ ']' :: rest))
          (by
            have := length_le_flatMap_goEscape x
            simp only [List.length_append, List.length_cons]
            omega)
        show (match parseJsonStringBody
            ((x.flatMap goEscapeChar ++ '"' ::
              (',' :: (sepByComma (goMarshalStringChars y :: ys.map goMarshalStringChars)
                ++ ']' :: rest))).length + 1)
            (x.flatMap goEscapeChar ++ '"' ::
              (',' :: (sepByComma (goMarshalStringChars y :: ys.map goMarshalStringChars)
                ++ ']' :: rest))) with
          | some (s, rest2) =>
            match skipWs rest2 with
            | ',' :: rest3 => (fun q => (s :: q.1, q.2)) <$> parseStringArrayElems f rest3
            | ']' :: rest3 => some ([s], rest3)
            | _ => none
          | none => none) = some (x :: y :: ys, rest)
        rw [hpb]
        have hih := ih f rest (by simp) (by simpa using Nat.le_of_succ_le_succ hfuel)
        simp only [List.map_cons] at hih
        show (fun q => (x :: q.1, q.2)) <$> parseStringArrayElems f
            (sepByComma (goMarshalStringChars y :: ys.map goMarshalStringChars) ++ ']' :: rest)
          = some (x :: y :: ys, rest)
        rw [hih]
        rfl

theorem goUnmarshalStringArray_marshal (l : List (List Char)) (hne : l ≠ []) :
    goUnmarshalStringArray (goMarshalStringArray l) = some l := by
  obtain ⟨x, xs, rfl⟩ := List.exists_cons_of_ne_nil hne
  rw [goMarshalStringArray]
  show (match parseStringArrayElems
      (sepByComma ((x :: xs).map goMarshalStringChars) ++ [']']).length
      (sepByComma ((x :: xs).map goMarshalStringChars) ++ [']']) with
    | some (l2, rest2) => if skipWs rest2 = [] then some l2 else none
    | none => none) = some (x :: xs)
  rw [show (sepByComma ((x :: xs).map goMarshalStringChars) ++ [']'] : List Char)
      = sepByComma ((x :: xs).map goMarshalStringChars) ++ ']' :: [] from rfl]
  rw [parseElems_marshal (x :: xs) _ [] (by simp)
    (by
      have := length_sepByComma_marshal (x :: xs) (']' :: [])
      simpa using this)]
  rfl

/-- C1.  The flexible scalar codec round-trips every non-empty
sequence: decoding the encoding reproduces the sequence in order; a
one-element sequence encodes as a bare JSON string (first byte a quote,
so no surrounding array brackets), and a sequence of two or more
elements encodes as a JSON array (first byte `[`, last byte `]`). -/
theorem stringOrArray_roundtrip (s : StringOrArray) (hne : s ≠ []) :
    StringOrArray.unmarshalJSON (StringOrArray.marshalJSON s) = .ok s ∧
    (s.length = 1 → (StringOrArray.marshalJSON s).head? = some '"') ∧
    (2 ≤ s.length → (StringOrArray.marshalJSON s).head? = some '[' ∧
      (StringOrArray.marshalJSON s).getLast? = some ']') := by
  obtain ⟨x, xs, rfl⟩ := List.exists_cons_of_ne_nil hne
  cases xs with
  | nil =>
    have hm : StringOrArray.marshalJSON [x] = goMarshalStringChars x := by
      simp [StringOrArray.marshalJSON]
    have hcond : ¬ (1 < (goMarshalStringChars x).length ∧
        (goMarshalStringChars x).head? = some '[') := by
      simp [goMarshalStringChars]
    refine ⟨?_, fun _ => ?_, fun h2 => by simp at h2⟩
    · rw [hm, StringOrArray.unmarshalJSON, if_neg hcond, goUnmarshalString_marshal]
    · rw [hm, goMarshalStringChars]
      rfl
  | cons y ys =>
    have hm : StringOrArray.marshalJSON (x :: y :: ys) = goMarshalStringArray (x :: y :: ys) := by
      simp [StringOrArray.marshalJSON]
    have hcond : 1 < (goMarshalStringArray (x :: y :: ys)).length ∧
        (goMarshalStringArray (x :: y :: ys)).head? = some '[' := by
      refine ⟨?_, rfl⟩
      simp [goMarshalStringArray]
    refine ⟨?_, fun h1 => by simp at h1, fun _ => ⟨?_, ?_⟩⟩
    · rw [hm, StringOrArray.unmarshalJSON, if_pos hcond,
        goUnmarshalStringArray_marshal _ (by simp)]
    · rw [hm, goMarshalStringArray]
      rfl
    · rw [hm, goMarshalStringArray]
      have : ('[' : Char) :: (sepByComma ((x :: y :: ys).map goMarshalStringChars) ++ [']'])
          = ('[' :: sepByComma ((x :: y :: ys).map goMarshalStringChars)) ++ [']'] :=
        (List.cons_append _ _ _).symm
      rw [this]
      exact List.getLast?_concat _

/-- C1 witness at the two-element sequence `["a","b"]` and the
one-element sequence `["x"]`. -/
theorem stringOrArray_roundtrip_witness :
    StringOrArray.unmarshalJSON (StringOrArray.marshalJSON [['a'], ['b']]) = .ok [['a'], ['b']] ∧
    (StringOrArray.marshalJSON [['x']]).head? = some '"' :=
  ⟨(stringOrArray_roundtrip [['a'], ['b']] (List.cons_ne_nil _ _)).1,
   (stringOrArray_roundtrip [['x']] (List.cons_ne_nil _ _)).2.1 (by decide)⟩

/-- C8 counterexample.  Encoding the empty flexible-scalar sequence is
not an error: `MarshalJSON` silently emits the two-byte JSON array
`[]` (the model of the method is total and has no error return for
this input). -/
theorem marshalJSON_empty_emits_array :
    StringOrArray.marshalJSON [] = ['[', ']'] := rfl

/-- C8 (amended).  Encoding the empty sequence silently produces the
JSON array `[]`, which decodes back to the empty sequence; no
`EmptyScalar` error exists in the code. -/
theorem marshalJSON_empty_roundtrip :
    StringOrArray.marshalJSON [] = ['[', ']'] ∧
    StringOrArray.unmarshalJSON (StringOrArray.marshalJSON []) = .ok [] := by
  exact ⟨rfl, by rfl⟩

/-- C10.  `EnforcedString.UnmarshalJSON` is well-defined exactly on
non-empty payloads: any payload of length at least one completes with a
decoded value or an error return, while the empty payload reaches the
unguarded `data[0]` index (modelled as `none`). -/
theorem enforcedString_first_byte_guard :
    (∀ d : List Char, d ≠ [] → (EnforcedString.unmarshalJSON d).isSome = true) ∧
    EnforcedString.unmarshalJSON [] = none := by
  constructor
  · intro d hd
    cases d with
    | nil => cases hd rfl
    | cons c cs => rfl
  · rfl

/-- C10 witness at the one-byte payload `x`. -/
theorem enforcedString_first_byte_guard_witness :
    (EnforcedString.unmarshalJSON ['x']).isSome = true :=
  enforcedString_first_byte_guard.1 ['x'] (by decide)

theorem replaceAllFuel_zero (pat rep : List Char) (s : List Char) :
    replaceAllFuel pat rep 0 s = s := by
  cases s <;> rfl

theorem replaceAll_quote_eq_escapeQuotes (s : List Char) :
    ∀ fuel, s.length ≤ fuel →
    replaceAllFuel ['"'] ['\\', '"'] fuel s = escapeQuotes s := by
  induction s with
  | nil => intro fuel _; cases fuel <;> rfl
  | cons c cs ih =>
    intro fuel h
    cases fuel with
    | zero => simp at h
    | succ f =>
      by_cases hc : c = '"'
      · subst hc
        rw [show replaceAllFuel ['"'] ['\\', '"'] (f + 1) ('"' :: cs)
            = ['\\', '"'] ++ replaceAllFuel ['"'] ['\\', '"'] f cs from by
          simp only [replaceAllFuel]
          rw [if_pos ⟨by simp [List.isPrefixOf], by simp⟩]
          rfl]
        rw [ih f (by simpa using Nat.le_of_succ_le_succ h)]
        simp [escapeQuotes]
      · rw [show replaceAllFuel ['"'] ['\\', '"'] (f + 1) (c :: cs)
            = c :: replaceAllFuel ['"'] ['\\', '"'] f cs from by
          simp only [replaceAllFuel]
          rw [if_neg (by
            rintro ⟨hpre, -⟩
            simp [List.isPrefixOf] at hpre
            exact hc hpre.symm)]]
        rw [ih f (by simpa using Nat.le_of_succ_le_succ h)]
        simp [escapeQuotes, hc]

theorem replaceAll_collapse_id_of_no_backslash (d : List Char) (hb : '\\' ∉ d) :
    ∀ fuel, replaceAllFuel ['\\', '\\', '"'] ['\\', '"'] fuel (escapeQuotes d)
      = escapeQuotes d := by
  induction d with
  | nil => intro fuel; cases fuel <;> rfl
  | cons c cs ih =>
    intro fuel
    have hcb : c ≠ '\\' := fun h => hb (h ▸ List.mem_cons_self c cs)
    have hcs : '\\' ∉ cs := fun h => hb (List.mem_cons_of_mem c h)
    cases fuel with
    | zero => exact replaceAllFuel_zero _ _ _
    | succ f =>
      by_cases hc : c = '"'
      · subst hc
        rw [show escapeQuotes ('"' :: cs) = '\\' :: '"' :: escapeQuotes cs from by
          simp [escapeQuotes]]
        rw [show replaceAllFuel ['\\', '\\', '"'] ['\\', '"'] (f + 1) ('\\' :: '"' :: escapeQuotes cs)
            = '\\' :: replaceAllFuel ['\\', '\\', '"'] ['\\', '"'] f ('"' :: escapeQuotes cs) from by
          simp only [replaceAllFuel]
          rw [if_neg (by simp [List.isPrefixOf])]]
        cases f with
        | zero => rw [replaceAllFuel_zero]
        | succ f2 =>
          rw [show replaceAllFuel ['\\', '\\', '"'] ['\\', '"'] (f2 + 1) ('"' :: escapeQuotes cs)
              = '"' :: replaceAllFuel ['\\', '\\', '"'] ['\\', '"'] f2 (escapeQuotes cs) from by
            simp only [replaceAllFuel]
            rw [if_neg (by simp [List.isPrefixOf])]]
          rw [ih hcs f2]
      · rw [show escapeQuotes (c :: cs) = c :: escapeQuotes cs from by simp [escapeQuotes, hc]]
        rw [show replaceAllFuel ['\\', '\\', '"'] ['\\', '"'] (f + 1) (c :: escapeQuotes cs)
            = c :: replaceAllFuel ['\\', '\\', '"'] ['\\', '"'] f (escapeQuotes cs) from by
          simp only [replaceAllFuel]
          rw [if_neg (by simp [List.isPrefixOf, Ne.symm hcb])]]
        rw [ih hcs f]

theorem length_le_escapeQuotes (d : List Char) :
    d.length ≤ (escapeQuotes d).length := by
  induction d with
  | nil => simp [escapeQuotes]
  | cons c cs ih =>
    have h1 : 1 ≤ (if c = '"' then ['\\', '"'] else [c]).length := by split <;> simp
    simp only [escapeQuotes, List.flatMap_cons, List.length_append, List.length_cons] at *
    omega

theorem parseBody_escapeQuotes (d : List Char) :
    ∀ (fuel : Nat) (rest : List Char), d.length < fuel → '\\' ∉ d →
    (∀ c ∈ d, ¬ c.toNat < 0x20) →
    parseJsonStringBody fuel (escapeQuotes d ++ '"' :: rest) = some (d, rest) := by
  induction d with
  | nil =>
    intro fuel rest h _ _
    cases fuel with
    | zero => omega
    | succ f => rfl
  | cons c cs ih =>
    intro fuel rest h hb hcc
    have hcb : c ≠ '\\' := fun hx => hb (hx ▸ List.mem_cons_self c cs)
    have hcsb : '\\' ∉ cs := fun hx => hb (List.mem_cons_of_mem c hx)
    have hccs : ∀ x ∈ cs, ¬ x.toNat < 0x20 := fun x hx => hcc x (List.mem_cons_of_mem c hx)
    cases fuel with
    | zero => omega
    | succ f =>
      have hf : cs.length < f := by
        simp only [List.length_cons] at h
        omega
      by_cases hc : c = '"'
      · subst hc
        rw [show escapeQuotes ('"' :: cs) ++ '"' :: rest
            = '\\' :: '"' :: (escapeQuotes cs ++ '"' :: rest) from by simp [escapeQuotes]]
        rw [show parseJsonStringBody (f + 1) ('\\' :: '"' :: (escapeQuotes cs ++ '"' :: rest))
            = (fun p => ('"' :: p.1, p.2)) <$>
              parseJsonStringBody f (escapeQuotes cs ++ '"' :: rest) from rfl]
        rw [ih f rest hf hcsb hccs]
        rfl
      · rw [show escapeQuotes (c :: cs) ++ '"' :: rest
            = c :: (escapeQuotes cs ++ '"' :: rest) from by simp [escapeQuotes, hc]]
        rw [parseJsonStringBody.eq_def]
        have hc20 : ¬ c.toNat < 0x20 := hcc c (List.mem_cons_self c cs)
        simp [hc, hcb, hc20, ih f rest hf hcsb hccs]

/-- C9 counterexample.  The repaired payload is decoded as a JSON
string, so escape sequences inside the raw content are interpreted
rather than preserved: the unquoted payload `a\b` decodes to the
two-character string `a` followed by a backspace, not to the raw
three-character content; and a raw control character (here a newline)
makes the repaired decode fail instead of yielding the raw content. -/
theorem enforcedString_interprets_escapes :
    EnforcedString.unmarshalJSON ['a', '\\', 'b'] = some (.ok ['a', Char.ofNat 8]) ∧
    (['a', Char.ofNat 8] : List Char) ≠ ['a', '\\', 'b'] ∧
    EnforcedString.unmarshalJSON ['a', '\n'] = some (.error "json: cannot unmarshal string") := by
  exact ⟨by rfl, by decide, by rfl⟩

/-- C9 (amended).  For a non-empty payload whose first byte is not a
quote, `EnforcedString.UnmarshalJSON` escapes unescaped quotes,
collapses doubled escapes, wraps the content in quotes and decodes the
result; the decode yields the raw content verbatim whenever the content
contains no backslash and no control character (escape sequences in the
content are otherwise interpreted, and raw control characters make the
decode fail).  In particular the unquoted payload
`hello "world"` decodes to the literal text `hello "world"`. -/
theorem enforcedString_defensive_decode :
    (∀ d : List Char, d ≠ [] → d.head? ≠ some '"' → '\\' ∉ d →
      (∀ c ∈ d, ¬ c.toNat < 0x20) →
      EnforcedString.unmarshalJSON d = some (.ok d)) ∧
    EnforcedString.unmarshalJSON "hello \"world\"".toList
      = some (.ok "hello \"world\"".toList) := by
  refine ⟨fun d hne hq hb hcc => ?_, by rfl⟩
  obtain ⟨c, cs, rfl⟩ := List.exists_cons_of_ne_nil hne
  have hcq : c ≠ '"' := by
    intro hx
    exact hq (by rw [hx]; rfl)
  have hd1 : replaceAll ['"'] ['\\', '"'] (c :: cs) = escapeQuotes (c :: cs) :=
    replaceAll_quote_eq_escapeQuotes (c :: cs) (c :: cs).length (Nat.le_refl _)
  have hd2 : replaceAll ['\\', '\\', '"'] ['\\', '"'] (escapeQuotes (c :: cs))
      = escapeQuotes (c :: cs) :=
    replaceAll_collapse_id_of_no_backslash (c :: cs) hb (escapeQuotes (c :: cs)).length
  have hparse : goUnmarshalString ('"' :: (escapeQuotes (c :: cs) ++ ['"']))
      = some (c :: cs) := by
    show (match parseJsonStringBody ((escapeQuotes (c :: cs) ++ ['"']).length + 1)
        (escapeQuotes (c :: cs) ++ ['"']) with
      | some (v, rest2) => if skipWs rest2 = [] then some v else none
      | none => none) = some (c :: cs)
    rw [show (escapeQuotes (c :: cs) ++ ['"'] : List Char)
        = escapeQuotes (c :: cs) ++ '"' :: [] from rfl]
    rw [parseBody_escapeQuotes (c :: cs) _ []
      (by
        have hle := length_le_escapeQuotes (c :: cs)
        simp only [List.length_append, List.length_cons, List.length_nil] at hle ⊢
        omega)
      hb hcc]
    rfl
  have hun : EnforcedString.unmarshalJSON (c :: cs)
      = some (match goUnmarshalString (if c ≠ '"' then
          '"' :: (replaceAll ['\\', '\\', '"'] ['\\', '"']
            (replaceAll ['"'] ['\\', '"'] (c :: cs)) ++ ['"'])
        else c :: cs) with
        | some v => Except.ok v
        | none => Except.error "json: cannot unmarshal string") := rfl
  rw [hun, if_pos hcq, hd1, hd2, hparse]

/-- C9 witness at the spec's example payload `hello "world"`. -/
theorem enforcedString_defensive_decode_witness :
    EnforcedString.unmarshalJSON "hello \"world\"".toList
      = some (.ok "hello \"world\"".toList) :=
  enforcedString_defensive_decode.1 "hello \"world\"".toList (by decide) (by decide)
    (by decide) (by decide)
